import Mathlib

/-!
Verification of the rocket-test UDP discovery/test protocol core.

This file is a shallow embedding of the protocol engine found in
`src/rocket_lab/data.py`, `src/rocket_lab/networking.py` and
`src/rocket_lab/udp.py`:

* the wire message codec (`DeviceMessage.from_bytes` / `DeviceMessage.to_bytes`),
* discovery-record construction (`DiscoveryData.from_datagram` /
  `DiscoveryData.from_datagrams`) and the `(model, serial)` ordering,
* status-sample extraction (`StatusData.from_message`), and
* the streaming test-session loop (`run_test`).

Modelling conventions:

* Python `str` values are `List Char` (a sequence of Unicode code points);
  Python `bytes` values are `List Nat`, each element a machine byte (reduced
  mod 256 where it is interpreted).
* Python `float` is modelled by exact rationals (`Rat`); `float(...)` string
  parsing is modelled on the plain decimal-literal subset of its grammar
  (optional sign, digits, optional single point; no exponent, no whitespace,
  no underscores, no `inf`/`nan`), which covers every value exchanged by the
  protocol.
* Python `dict[str, str]` is an insertion-ordered association list without
  duplicate keys; assignment (`d[k] = v`) replaces in place or appends.
* A Python function that may raise becomes a function into `Except`; an
  uncaught exception propagating out of a generator is an `Except.error`
  (or a dedicated exit constructor for the session loop).
-/

deriving instance DecidableEq for Except

namespace RocketTest

/-- Python `str`: a sequence of Unicode code points. -/
abbrev PyStr := List Char

/-- Python `bytes`: a list of machine bytes. -/
abbrev PyBytes := List Nat

/-- Lean string literal to `PyStr`. -/
def pstr (s : String) : PyStr := s.data

/-- ASCII/latin-1 byte string literal, written via its text. -/
def pbytes (s : String) : PyBytes := s.data.map Char.toNat

/-- Python `s.split(sep)` for a single-character separator: splits at every
occurrence of `sep`; `n` separators yield `n + 1` (possibly empty) parts. -/
def pySplit (sep : Char) : PyStr → List PyStr
  | [] => [[]]
  | c :: rest =>
    if c = sep then [] :: pySplit sep rest
    else
      match pySplit sep rest with
      | [] => [[c]]
      | p :: ps => (c :: p) :: ps

/-- Joins parts with a single-character separator (inverse of `pySplit`). -/
def joinSep (sep : Char) : List PyStr → PyStr
  | [] => []
  | [p] => p
  | p :: q :: ps => p ++ sep :: joinSep sep (q :: ps)

/-- Python `binary.decode(DEFAULT_ENCODING, errors='replace')` with the codebase's
`DEFAULT_ENCODING` (ISO-8859-1): each byte becomes the code point of the same
value, so decoding never fails. Bytes are reduced mod 256 (machine width). -/
def latin1Decode (binary : PyBytes) : PyStr :=
  binary.map (fun b => Char.ofNat (b % 256))

/-- Python `string.encode(DEFAULT_ENCODING, errors="replace")` (ISO-8859-1): code
points below 256 map to the byte of the same value, anything else becomes the
replacement byte `?` (63). -/
def latin1Encode (s : PyStr) : PyBytes :=
  s.map (fun c => if c.toNat < 256 then c.toNat else 63)

/-- Python dict assignment `d[k] = v` on an insertion-ordered association
list: replace the value in place if the key is present, else append. -/
def dictSet (d : List (PyStr × PyStr)) (k v : PyStr) : List (PyStr × PyStr) :=
  if d.any (fun p => p.1 == k) then
    d.map (fun p => if p.1 == k then (k, v) else p)
  else
    d ++ [(k, v)]

/-- Python `k in d` / `d[k]` combined: the value stored under `k`, if any. -/
def dictGet (d : List (PyStr × PyStr)) (k : PyStr) : Option PyStr :=
  (d.find? (fun p => p.1 == k)).map (fun p => p.2)

/-- The `ValueError` raised by `DeviceMessage.from_bytes`
(`src/rocket_lab/data.py`): either a key/value segment that does not split
into exactly two pieces on `=` — the error text keeps the offending segment
and the whole raw byte string — or an empty message name. -/
inductive ParseError where
  | malformedSegment (part : PyStr) (raw : PyBytes)
  | emptyName
  deriving DecidableEq

/-- Class `DeviceMessage` (`src/rocket_lab/data.py`): a message name plus
insertion-ordered key/value data, no numeric interpretation. -/
structure DeviceMessage where
  name : PyStr
  data : List (PyStr × PyStr)
  deriving DecidableEq

namespace DeviceMessage

/-- The `for part in parts[1:]` loop of `DeviceMessage.from_bytes`: skip empty
segments, split each remaining segment on `=`, require exactly two pieces, and
store them with dict assignment; otherwise raise. -/
def parseFields (raw : PyBytes) :
    List PyStr → List (PyStr × PyStr) → Except ParseError (List (PyStr × PyStr))
  | [], d => .ok d
  | part :: rest, d =>
    if part = [] then parseFields raw rest d
    else
      match pySplit '=' part with
      | [k, v] => parseFields raw rest (dictSet d k v)
      | _ => .error (.malformedSegment part raw)

/-- Method `DeviceMessage.from_bytes` (`src/rocket_lab/data.py` lines 48-77): decode
as latin-1, split on `;`, take the first segment as the name, parse the
remaining segments as key/value data, and reject an empty name (checked after
the segment loop, exactly as in the source). -/
def from_bytes (binary : PyBytes) : Except ParseError DeviceMessage :=
  let string := latin1Decode binary
  let parts := pySplit ';' string
  let name := parts.headD []
  match parseFields binary parts.tail [] with
  | .error e => .error e
  | .ok data => if name = [] then .error .emptyName else .ok ⟨name, data⟩

/-- Segment list built by `DeviceMessage.to_string`: the name followed by one
`key=value` segment per entry, in insertion order. -/
def segments (m : DeviceMessage) : List PyStr :=
  m.name :: m.data.map (fun p => p.1 ++ '=' :: p.2)

/-- Method `DeviceMessage.to_string` (`src/rocket_lab/data.py` lines 79-91): every
segment, the name included, is terminated with a `;`. -/
def to_string (m : DeviceMessage) : PyStr :=
  ((m.segments).map (fun part => part ++ [';'])).flatten

/-- Method `DeviceMessage.to_bytes`: serialise then encode as latin-1. -/
def to_bytes (m : DeviceMessage) : PyBytes :=
  latin1Encode m.to_string

end DeviceMessage

/-- Python string comparison `a < b`: lexicographic on code points, a proper
prefix is smaller. -/
def strLt : PyStr → PyStr → Bool
  | [], [] => false
  | [], _ :: _ => true
  | _ :: _, [] => false
  | a :: s, b :: t =>
    if a.toNat < b.toNat then true
    else if b.toNat < a.toNat then false
    else strLt s t

/-- Transport-level datagram (`src/rocket_lab/udp.py`): source address and
port plus the raw payload. -/
structure Datagram where
  address : PyStr
  port : Nat
  data : PyBytes
  deriving DecidableEq

/-- Class `DiscoveryData` (`src/rocket_lab/data.py` lines 100-112): one responding
device. Equality (dataclass `eq=True`) uses all four fields. -/
structure DiscoveryData where
  address : PyStr
  port : Nat
  model : PyStr
  serial : PyStr
  deriving DecidableEq

namespace DiscoveryData

/-- Method `DiscoveryData.__lt__`: tuple comparison `(model, serial) < (model,
serial)`, address and port ignored. -/
def lt (a b : DiscoveryData) : Bool :=
  strLt a.model b.model || (a.model == b.model && strLt a.serial b.serial)

/-- Exception leaving `DiscoveryData.from_datagram`: the `ValueError` from
`DeviceMessage.from_bytes` escapes untouched (the call sits before the `try`
block), while a missing `MODEL`/`SERIAL` key (`KeyError`) is re-raised as
`RuntimeError`. -/
inductive FromDatagramError where
  | uncaughtParse (e : ParseError)
  | runtime (key : PyStr)
  deriving DecidableEq

/-- Method `DiscoveryData.from_datagram` (`src/rocket_lab/data.py` lines 114-145):
decode the payload (outside the `try`), then read `MODEL` and `SERIAL`,
wrapping only a `KeyError` into `RuntimeError`. -/
def from_datagram (dg : Datagram) : Except FromDatagramError DiscoveryData :=
  match DeviceMessage.from_bytes dg.data with
  | .error e => .error (.uncaughtParse e)
  | .ok message =>
    match dictGet message.data (pstr "MODEL") with
    | none => .error (.runtime (pstr "MODEL"))
    | some model =>
      match dictGet message.data (pstr "SERIAL") with
      | none => .error (.runtime (pstr "SERIAL"))
      | some serial => .ok ⟨dg.address, dg.port, model, serial⟩

/-- Method `DiscoveryData.from_datagrams` (`src/rocket_lab/data.py` lines 147-169):
`except RuntimeError` logs and drops the single record; any other exception —
in particular the `ValueError` from a payload that fails to decode — is not
caught and aborts the whole call. -/
def from_datagrams : List Datagram → Except ParseError (List DiscoveryData)
  | [] => .ok []
  | dg :: rest =>
    match from_datagram dg with
    | .ok device => (from_datagrams rest).map (fun ds => device :: ds)
    | .error (.runtime _) => from_datagrams rest
    | .error (.uncaughtParse e) => .error e

end DiscoveryData

/-- Stable insertion into a sorted list using `__lt__`, placing `x` after
every element it is not smaller than — the insertion step of Python's stable
ascending `list.sort()`. -/
def insertSorted (x : DiscoveryData) : List DiscoveryData → List DiscoveryData
  | [] => [x]
  | y :: ys => if DiscoveryData.lt y x then y :: insertSorted x ys else x :: y :: ys

/-- Python `sorted` / `list.sort()` on discovery records: stable ascending
sort driven solely by `DiscoveryData.__lt__`. -/
def pySorted : List DiscoveryData → List DiscoveryData
  | [] => []
  | x :: xs => insertSorted x (pySorted xs)

/-- One decimal digit, or `none`. -/
def digVal (c : Char) : Option Nat :=
  if 48 ≤ c.toNat ∧ c.toNat ≤ 57 then some (c.toNat - 48) else none

/-- All characters are decimal digits (true of the empty string). -/
def allDigits (s : PyStr) : Bool :=
  s.all (fun c => (digVal c).isSome)

/-- Numeric value of a digit string (0 for the empty string). -/
def digitsVal (s : PyStr) : Nat :=
  s.foldl (fun acc c => 10 * acc + ((digVal c).getD 0)) 0

/-- Python `float(s)` on the decimal-literal subset of its grammar (optional
sign, digits, optional single point, at least one digit), as an exact
rational; `none` models `ValueError`. -/
def parseFloat? (s : PyStr) : Option Rat :=
  let unsigned : PyStr → Option Rat := fun u =>
    match pySplit '.' u with
    | [ip] =>
      if ip ≠ [] ∧ allDigits ip then some (digitsVal ip) else none
    | [ip, fp] =>
      if (ip ≠ [] ∨ fp ≠ []) ∧ allDigits ip ∧ allDigits fp then
        some ((digitsVal ip : Rat) + (digitsVal fp : Rat) / (10 : Rat) ^ fp.length)
      else none
    | _ => none
  match s with
  | '-' :: rest => (unsigned rest).map (fun q => -q)
  | '+' :: rest => unsigned rest
  | _ => unsigned s

/-- Class `StatusData` (`src/rocket_lab/data.py` lines 172-179): one status report,
floats modelled as exact rationals. -/
structure StatusData where
  ma : Rat
  mv : Rat
  time : Rat
  deriving DecidableEq

/-- The `ValueError` raised by `StatusData.from_message`: wrong message name,
`KeyError` re-raised as "Status data missing: <key> not found", or `float()`
failure re-raised as "Invalid status data: ..." — missing key and invalid
value are distinct conditions with distinct diagnostics. -/
inductive StatusError where
  | wrongName (name : PyStr)
  | missing (key : PyStr)
  | invalid (value : PyStr)
  deriving DecidableEq

/-- Method `StatusData.from_message` (`src/rocket_lab/data.py` lines 181-211):
require name `STATUS`, then evaluate `float(data['MA'])`,
`float(data['MV'])`, `float(data['TIME']) / 1000.0` in source order, so the
first failing lookup or conversion determines the error. -/
def StatusData.from_message (m : DeviceMessage) : Except StatusError StatusData :=
  if m.name ≠ pstr "STATUS" then .error (.wrongName m.name)
  else
    match dictGet m.data (pstr "MA") with
    | none => .error (.missing (pstr "MA"))
    | some maStr =>
      match parseFloat? maStr with
      | none => .error (.invalid maStr)
      | some ma =>
        match dictGet m.data (pstr "MV") with
        | none => .error (.missing (pstr "MV"))
        | some mvStr =>
          match parseFloat? mvStr with
          | none => .error (.invalid mvStr)
          | some mv =>
            match dictGet m.data (pstr "TIME") with
            | none => .error (.missing (pstr "TIME"))
            | some timeStr =>
              match parseFloat? timeStr with
              | none => .error (.invalid timeStr)
              | some time => .ok ⟨ma, mv, time / 1000⟩

/-- How one invocation of the `run_test` generator
(`src/rocket_lab/networking.py` lines 20-77) stops delivering messages:
`completed` is the `return` taken on a `STATE=IDLE` report (normal end of the
generator); `timeoutRaised` is the `TimeoutError` raised by `udp_client` when
the socket stays silent, which `run_test` does not catch and therefore
propagates to the caller; `parseErrorRaised` is an uncaught `ValueError` from
`DeviceMessage.from_bytes`. -/
inductive SessionExit where
  | completed
  | timeoutRaised
  | parseErrorRaised (e : ParseError)
  deriving DecidableEq

/-- Generator `run_test` (`src/rocket_lab/networking.py` lines 20-77), as a function of
the inbound datagram payloads produced by `udp_client` before its timeout:
decode each payload; consume every message named `TEST` without yielding it;
`return` on the first message whose data maps `STATE` to `IDLE`; otherwise
yield the decoded message. The end of the input list is the point where
`udp_client`'s `recv` raises `TimeoutError`. Returns the yielded messages in
arrival order plus how the generator stopped. -/
def run_test : List PyBytes → List DeviceMessage × SessionExit
  | [] => ([], .timeoutRaised)
  | raw :: rest =>
    match DeviceMessage.from_bytes raw with
    | .error e => ([], .parseErrorRaised e)
    | .ok datum =>
      if datum.name = pstr "TEST" then run_test rest
      else if dictGet datum.data (pstr "STATE") = some (pstr "IDLE") then
        ([], .completed)
      else
        let r := run_test rest
        (datum :: r.1, r.2)

example :
    DeviceMessage.from_bytes (pbytes "ID;MODEL=M001;SERIAL=SN0123457;") =
      .ok ⟨pstr "ID", [(pstr "MODEL", pstr "M001"), (pstr "SERIAL", pstr "SN0123457")]⟩ := by
  decide

example :
    DeviceMessage.to_bytes ⟨pstr "ID", [(pstr "MODEL", pstr "M001")]⟩ =
      pbytes "ID;MODEL=M001;" := by
  decide

example : DeviceMessage.from_bytes (pbytes "") = .error .emptyName := by decide

example :
    DeviceMessage.from_bytes (pbytes "ID;MODEL=M001=M002;SERIAL=SN1;") =
      .error (.malformedSegment (pstr "MODEL=M001=M002") (pbytes "ID;MODEL=M001=M002;SERIAL=SN1;")) := by
  decide

/-! ### Properties of `pySplit` -/

theorem pySplit_ne_nil (sep : Char) (s : PyStr) : pySplit sep s ≠ [] := by
  cases s with
  | nil => simp [pySplit]
  | cons c rest =>
    by_cases h : c = sep
    · simp [pySplit, h]
    · simp only [pySplit, if_neg h]
      cases pySplit sep rest <;> simp

theorem pySplit_no_sep (sep : Char) {s : PyStr} (h : sep ∉ s) : pySplit sep s = [s] := by
  induction s with
  | nil => rfl
  | cons c rest ih =>
    have hc : ¬c = sep := fun hc => h (hc ▸ List.mem_cons_self c rest)
    have hrest : sep ∉ rest := fun hr => h (List.mem_cons_of_mem c hr)
    simp only [pySplit, if_neg hc, ih hrest]

theorem pySplit_append (sep : Char) {a : PyStr} (b : PyStr) (h : sep ∉ a) :
    pySplit sep (a ++ sep :: b) = a :: pySplit sep b := by
  induction a with
  | nil => simp [pySplit]
  | cons c rest ih =>
    have hc : ¬c = sep := fun hc => h (hc ▸ List.mem_cons_self c rest)
    have hrest : sep ∉ rest := fun hr => h (List.mem_cons_of_mem c hr)
    simp only [List.cons_append, pySplit, if_neg hc, List.append_eq, ih hrest]

theorem not_sep_mem_of_mem_pySplit {sep : Char} {s p : PyStr}
    (hp : p ∈ pySplit sep s) : sep ∉ p := by
  induction s generalizing p with
  | nil =>
    simp only [pySplit, List.mem_singleton] at hp
    simp [hp]
  | cons c rest ih =>
    by_cases h : c = sep
    · simp only [pySplit, if_pos h, List.mem_cons] at hp
      rcases hp with hp | hp
      · simp [hp]
      · exact ih hp
    · simp only [pySplit, if_neg h] at hp
      cases heq : pySplit sep rest with
      | nil => exact absurd heq (pySplit_ne_nil sep rest)
      | cons q qs =>
        rw [heq] at hp
        rcases List.mem_cons.mp hp with hp | hp
        · subst hp
          intro hmem
          rcases List.mem_cons.mp hmem with hm | hm
          · exact h hm.symm
          · exact ih (heq ▸ List.mem_cons_self q qs) hm
        · exact ih (heq ▸ List.mem_cons_of_mem q hp)

theorem mem_of_mem_pySplit {sep : Char} {s p : PyStr} {c : Char}
    (hp : p ∈ pySplit sep s) (hc : c ∈ p) : c ∈ s := by
  induction s generalizing p with
  | nil =>
    simp only [pySplit, List.mem_singleton] at hp
    subst hp
    cases hc
  | cons a rest ih =>
    by_cases h : a = sep
    · simp only [pySplit, if_pos h, List.mem_cons] at hp
      rcases hp with hp | hp
      · subst hp; cases hc
      · exact List.mem_cons_of_mem a (ih hp hc)
    · simp only [pySplit, if_neg h] at hp
      cases heq : pySplit sep rest with
      | nil => exact absurd heq (pySplit_ne_nil sep rest)
      | cons q qs =>
        rw [heq] at hp
        rcases List.mem_cons.mp hp with hp | hp
        · subst hp
          rcases List.mem_cons.mp hc with hc | hc
          · exact hc ▸ List.mem_cons_self a rest
          · exact List.mem_cons_of_mem a (ih (heq ▸ List.mem_cons_self q qs) hc)
        · exact List.mem_cons_of_mem a (ih (heq ▸ List.mem_cons_of_mem q hp) hc)

theorem joinSep_pySplit (sep : Char) (s : PyStr) : joinSep sep (pySplit sep s) = s := by
  induction s with
  | nil => rfl
  | cons c rest ih =>
    by_cases h : c = sep
    · simp only [pySplit, if_pos h]
      cases heq : pySplit sep rest with
      | nil => exact absurd heq (pySplit_ne_nil sep rest)
      | cons q qs =>
        rw [heq] at ih
        simp only [joinSep, ih, h, List.nil_append]
    · simp only [pySplit, if_neg h]
      cases heq : pySplit sep rest with
      | nil => exact absurd heq (pySplit_ne_nil sep rest)
      | cons q qs =>
        rw [heq] at ih
        cases qs with
        | nil => simp only [joinSep] at ih ⊢; rw [ih]
        | cons r rs => simp only [joinSep, List.cons_append] at ih ⊢; rw [ih]

theorem pySplit_length (sep : Char) (s : PyStr) :
    (pySplit sep s).length = s.count sep + 1 := by
  induction s with
  | nil => simp [pySplit]
  | cons c rest ih =>
    by_cases h : c = sep
    · simp [pySplit, if_pos h, ih, List.count_cons, h]
    · simp only [pySplit, if_neg h]
      cases heq : pySplit sep rest with
      | nil => exact absurd heq (pySplit_ne_nil sep rest)
      | cons q qs =>
        rw [heq] at ih
        simp only [List.length_cons] at ih ⊢
        have : ¬(sep == c) := by simp [Ne.symm h]
        simp [List.count_cons, this, ih, h]

/-- A two-part split: the separator occurs in the middle and in neither part. -/
theorem pySplit_eq_pair {sep : Char} {s k v : PyStr} (h : pySplit sep s = [k, v]) :
    s = k ++ sep :: v ∧ sep ∉ k ∧ sep ∉ v := by
  have hk : sep ∉ k := not_sep_mem_of_mem_pySplit (h ▸ List.mem_cons_self k [v])
  have hv : sep ∉ v :=
    not_sep_mem_of_mem_pySplit (h ▸ List.mem_cons_of_mem k (List.mem_cons_self v []))
  have hj := joinSep_pySplit sep s
  rw [h] at hj
  simp only [joinSep] at hj
  exact ⟨hj.symm, hk, hv⟩

/-! ### Properties of `dictSet` and `parseFields` -/

theorem dictSet_of_not_mem {d : List (PyStr × PyStr)} {k : PyStr} (v : PyStr)
    (h : ∀ p ∈ d, p.1 ≠ k) : dictSet d k v = d ++ [(k, v)] := by
  have hany : d.any (fun p => p.1 == k) = false := by
    simp only [List.any_eq_false, beq_iff_eq]
    exact h
  simp [dictSet, hany]

theorem keys_dictSet_nodup {d : List (PyStr × PyStr)} {k v : PyStr}
    (h : (d.map Prod.fst).Nodup) : ((dictSet d k v).map Prod.fst).Nodup := by
  by_cases hany : d.any (fun p => p.1 == k) = true
  · have : (dictSet d k v).map Prod.fst = d.map Prod.fst := by
      simp only [dictSet, if_pos hany, List.map_map]
      refine List.map_congr_left (fun p _ => ?_)
      by_cases hp : p.1 == k
      · simp only [Function.comp_apply, if_pos hp]
        exact (eq_of_beq hp).symm
      · simp only [Function.comp_apply, if_neg hp]
    rw [this]
    exact h
  · have hk : ∀ p ∈ d, p.1 ≠ k := by
      simp only [List.any_eq_true, beq_iff_eq, not_exists] at hany
      intro p hp
      exact fun he => hany p ⟨hp, he⟩
    rw [dictSet_of_not_mem v hk, List.map_append]
    simp only [List.map_cons, List.map_nil, List.nodup_append]
    refine ⟨h, List.nodup_singleton k, ?_⟩
    intro a ha hb
    simp only [List.mem_singleton] at hb
    subst hb
    rcases List.mem_map.mp ha with ⟨p, hp, hfst⟩
    exact hk p hp hfst

theorem mem_dictSet {d : List (PyStr × PyStr)} {k v : PyStr} {p : PyStr × PyStr}
    (h : p ∈ dictSet d k v) : p ∈ d ∨ p = (k, v) := by
  by_cases hany : d.any (fun p => p.1 == k) = true
  · simp only [dictSet, if_pos hany] at h
    rcases List.mem_map.mp h with ⟨q, hq, hqp⟩
    by_cases hqk : q.1 == k
    · simp only [if_pos hqk] at hqp
      exact Or.inr hqp.symm
    · simp only [if_neg hqk] at hqp
      exact Or.inl (hqp ▸ hq)
  · simp only [dictSet, if_neg hany, List.mem_append, List.mem_singleton] at h
    exact h

/-- The serialised key/value tail of a message: each entry as `k=v;`. -/
def serTail : List (PyStr × PyStr) → PyStr
  | [] => []
  | p :: ps => (p.1 ++ '=' :: p.2) ++ ';' :: serTail ps

theorem serTail_eq (ps : List (PyStr × PyStr)) :
    (ps.map (fun p => (p.1 ++ '=' :: p.2) ++ [';'])).flatten = serTail ps := by
  induction ps with
  | nil => rfl
  | cons p ps ih =>
    rw [List.map_cons, List.flatten_cons, ih, List.append_assoc, List.singleton_append]
    rfl

theorem to_string_eq (m : DeviceMessage) :
    m.to_string = m.name ++ ';' :: serTail m.data := by
  show ((m.name :: m.data.map (fun p => p.1 ++ '=' :: p.2)).map (fun part => part ++ [';'])).flatten
      = m.name ++ ';' :: serTail m.data
  rw [List.map_cons, List.flatten_cons, List.map_map]
  rw [show ((fun part => part ++ [';']) ∘ (fun p : PyStr × PyStr => p.1 ++ '=' :: p.2)) =
      (fun p : PyStr × PyStr => (p.1 ++ '=' :: p.2) ++ [';']) from rfl]
  rw [serTail_eq, List.append_assoc, List.singleton_append]

namespace DeviceMessage

theorem parseFields_build (raw : PyBytes) (pairs : List (PyStr × PyStr)) :
    ∀ acc : List (PyStr × PyStr),
      (∀ p ∈ pairs, '=' ∉ p.1 ∧ '=' ∉ p.2) →
      (((acc ++ pairs).map Prod.fst).Nodup) →
      parseFields raw (pairs.map (fun p => p.1 ++ '=' :: p.2) ++ [[]]) acc =
        .ok (acc ++ pairs) := by
  induction pairs with
  | nil =>
    intro acc _ _
    simp [parseFields]
  | cons q rest ih =>
    intro acc hgood hnodup
    have hq := hgood q (List.mem_cons_self q rest)
    have hseg : pySplit '=' (q.1 ++ '=' :: q.2) = [q.1, q.2] := by
      rw [pySplit_append '=' q.2 hq.1, pySplit_no_sep '=' hq.2]
    have hne : q.1 ++ '=' :: q.2 ≠ [] := by
      cases q1 : q.1 <;> simp
    have hksub : ∀ p ∈ acc, p.1 ≠ q.1 := by
      intro p hp he
      rw [List.map_append, List.nodup_append] at hnodup
      refine hnodup.2.2 (List.mem_map_of_mem Prod.fst hp) ?_
      rw [he]
      exact List.mem_map_of_mem Prod.fst (List.mem_cons_self q rest)
    have hset : dictSet acc q.1 q.2 = acc ++ [q] := dictSet_of_not_mem q.2 hksub
    simp only [List.map_cons, List.cons_append, parseFields, if_neg hne, hseg, hset,
      List.append_eq]
    have hgood' : ∀ p ∈ rest, '=' ∉ p.1 ∧ '=' ∉ p.2 :=
      fun p hp => hgood p (List.mem_cons_of_mem q hp)
    have hnodup' : (((acc ++ [q]) ++ rest).map Prod.fst).Nodup := by
      rw [List.append_assoc, List.singleton_append]
      exact hnodup
    have := ih (acc ++ [q]) hgood' hnodup'
    rw [this, List.append_assoc, List.singleton_append]

theorem parseFields_ok_inv (raw : PyBytes) (parts : List PyStr) :
    ∀ acc d, parseFields raw parts acc = .ok d →
      ((acc.map Prod.fst).Nodup → (d.map Prod.fst).Nodup) ∧
      (∀ p ∈ d, p ∈ acc ∨ ∃ part ∈ parts, pySplit '=' part = [p.1, p.2]) := by
  induction parts with
  | nil =>
    intro acc d h
    simp only [parseFields, Except.ok.injEq] at h
    subst h
    exact ⟨id, fun p hp => Or.inl hp⟩
  | cons part rest ih =>
    intro acc d h
    by_cases hemp : part = []
    · simp only [parseFields, if_pos hemp] at h
      rcases ih acc d h with ⟨hnd, hmem⟩
      refine ⟨hnd, fun p hp => ?_⟩
      rcases hmem p hp with hl | ⟨q, hq, hsp⟩
      · exact Or.inl hl
      · exact Or.inr ⟨q, List.mem_cons_of_mem part hq, hsp⟩
    · simp only [parseFields, if_neg hemp] at h
      cases hsp : pySplit '=' part with
      | nil => exact absurd hsp (pySplit_ne_nil '=' part)
      | cons k ks =>
        cases ks with
        | nil => rw [hsp] at h; cases h
        | cons v vs =>
          cases vs with
          | nil =>
            rw [hsp] at h
            rcases ih (dictSet acc k v) d h with ⟨hnd, hmem⟩
            refine ⟨fun ha => hnd (keys_dictSet_nodup ha), fun p hp => ?_⟩
            rcases hmem p hp with hl | ⟨q, hq, hq2⟩
            · rcases mem_dictSet hl with hacc | hkv
              · exact Or.inl hacc
              · exact Or.inr ⟨part, List.mem_cons_self part rest, by rw [hsp, hkv]⟩
            · exact Or.inr ⟨q, List.mem_cons_of_mem part hq, hq2⟩
          | cons w ws => rw [hsp] at h; cases h

theorem parseFields_error_shape (raw : PyBytes) (parts : List PyStr) :
    ∀ acc e, parseFields raw parts acc = .error e →
      ∃ part ∈ parts, part ≠ [] ∧ (pySplit '=' part).length ≠ 2 ∧
        e = .malformedSegment part raw := by
  induction parts with
  | nil => intro acc e h; cases h
  | cons part rest ih =>
    intro acc e h
    by_cases hemp : part = []
    · simp only [parseFields, if_pos hemp] at h
      rcases ih acc e h with ⟨q, hq, hprop⟩
      exact ⟨q, List.mem_cons_of_mem part hq, hprop⟩
    · simp only [parseFields, if_neg hemp] at h
      cases hsp : pySplit '=' part with
      | nil => exact absurd hsp (pySplit_ne_nil '=' part)
      | cons k ks =>
        cases ks with
        | nil =>
          rw [hsp] at h
          refine ⟨part, List.mem_cons_self part rest, hemp, by rw [hsp]; simp, ?_⟩
          cases h
          rfl
        | cons v vs =>
          cases vs with
          | nil =>
            rw [hsp] at h
            rcases ih (dictSet acc k v) e h with ⟨q, hq, hprop⟩
            exact ⟨q, List.mem_cons_of_mem part hq, hprop⟩
          | cons w ws =>
            rw [hsp] at h
            refine ⟨part, List.mem_cons_self part rest, hemp, by rw [hsp]; simp, ?_⟩
            cases h
            rfl

theorem parseFields_error_exists (raw : PyBytes) (parts : List PyStr) :
    ∀ acc, (∃ part ∈ parts, part ≠ [] ∧ (pySplit '=' part).length ≠ 2) →
      ∃ e, parseFields raw parts acc = .error e := by
  induction parts with
  | nil => intro acc h; rcases h with ⟨_, h, _⟩; cases h
  | cons part rest ih =>
    intro acc h
    by_cases hemp : part = []
    · simp only [parseFields, if_pos hemp]
      rcases h with ⟨q, hq, hqne, hqlen⟩
      rcases List.mem_cons.mp hq with rfl | hq'
      · exact absurd hemp hqne
      · exact ih acc ⟨q, hq', hqne, hqlen⟩
    · simp only [parseFields, if_neg hemp]
      cases hsp : pySplit '=' part with
      | nil => exact absurd hsp (pySplit_ne_nil '=' part)
      | cons k ks =>
        cases ks with
        | nil => exact ⟨.malformedSegment part raw, rfl⟩
        | cons v vs =>
          cases vs with
          | nil =>
            rcases h with ⟨q, hq, hqne, hqlen⟩
            rcases List.mem_cons.mp hq with rfl | hq'
            · rw [hsp] at hqlen; simp at hqlen
            · exact ih (dictSet acc k v) ⟨q, hq', hqne, hqlen⟩
          | cons w ws => exact ⟨.malformedSegment part raw, rfl⟩

end DeviceMessage

/-! ### The round-trip invariant -/

/-- A string that can appear as a key or value of a decoded message: free of
both delimiters, all code points within latin-1. -/
def goodPiece (s : PyStr) : Prop :=
  '=' ∉ s ∧ ';' ∉ s ∧ ∀ c ∈ s, c.toNat < 256

/-- Shape of every message that `DeviceMessage.from_bytes` can produce:
non-empty name without `;`, latin-1 code points throughout, duplicate-free
keys, and delimiter-free keys and values. -/
def wf (m : DeviceMessage) : Prop :=
  m.name ≠ [] ∧ ';' ∉ m.name ∧ (∀ c ∈ m.name, c.toNat < 256) ∧
  (m.data.map Prod.fst).Nodup ∧
  ∀ p ∈ m.data, goodPiece p.1 ∧ goodPiece p.2

theorem toNat_charOfNat {n : Nat} (h : n < 256) : (Char.ofNat n).toNat = n := by
  unfold Char.ofNat
  rw [dif_pos (Or.inl (by omega : n < 0xd800))]
  rfl

theorem toNat_lt_of_mem_latin1Decode {raw : PyBytes} {c : Char}
    (h : c ∈ latin1Decode raw) : c.toNat < 256 := by
  rcases List.mem_map.mp h with ⟨b, _, hb⟩
  subst hb
  rw [toNat_charOfNat (Nat.mod_lt b (by omega))]
  exact Nat.mod_lt b (by omega)

theorem latin1Decode_encode {s : PyStr} (h : ∀ c ∈ s, c.toNat < 256) :
    latin1Decode (latin1Encode s) = s := by
  induction s with
  | nil => rfl
  | cons c rest ih =>
    have hc := h c (List.mem_cons_self c rest)
    have hrest := fun d hd => h d (List.mem_cons_of_mem c hd)
    simp only [latin1Encode, latin1Decode, List.map_cons, List.map_map] at ih ⊢
    rw [if_pos hc, Nat.mod_eq_of_lt hc, Char.ofNat_toNat, ih hrest]

namespace DeviceMessage

theorem mem_serTail {pairs : List (PyStr × PyStr)} {c : Char}
    (hc : c ∈ serTail pairs) :
    c = ';' ∨ c = '=' ∨ ∃ p ∈ pairs, c ∈ p.1 ∨ c ∈ p.2 := by
  induction pairs with
  | nil => cases hc
  | cons p ps ih =>
    simp only [serTail, List.append_assoc, List.cons_append, List.mem_append,
      List.mem_cons] at hc
    rcases hc with h1 | h1
    · exact Or.inr (Or.inr ⟨p, List.mem_cons_self p ps, Or.inl h1⟩)
    · rcases h1 with rfl | h1
      · exact Or.inr (Or.inl rfl)
      · rcases h1 with h1 | h1
        · exact Or.inr (Or.inr ⟨p, List.mem_cons_self p ps, Or.inr h1⟩)
        · rcases h1 with rfl | h1
          · exact Or.inl rfl
          · rcases ih h1 with h | h | ⟨q, hq, hcq⟩
            · exact Or.inl h
            · exact Or.inr (Or.inl h)
            · exact Or.inr (Or.inr ⟨q, List.mem_cons_of_mem p hq, hcq⟩)

theorem to_string_toNat_lt {m : DeviceMessage} (h : wf m) :
    ∀ c ∈ m.to_string, c.toNat < 256 := by
  intro c hc
  rw [to_string_eq] at hc
  rcases List.mem_append.mp hc with hname | htail
  · exact h.2.2.1 c hname
  · rcases List.mem_cons.mp htail with rfl | hser
    · decide
    · rcases mem_serTail hser with rfl | rfl | ⟨p, hp, hcp⟩
      · decide
      · decide
      · rcases hcp with hcp | hcp
        · exact ((h.2.2.2.2 p hp).1).2.2 c hcp
        · exact ((h.2.2.2.2 p hp).2).2.2 c hcp

theorem pySplit_serTail {pairs : List (PyStr × PyStr)}
    (h : ∀ p ∈ pairs, goodPiece p.1 ∧ goodPiece p.2) :
    pySplit ';' (serTail pairs) = pairs.map (fun p => p.1 ++ '=' :: p.2) ++ [[]] := by
  induction pairs with
  | nil => rfl
  | cons p ps ih =>
    have hp := h p (List.mem_cons_self p ps)
    have hsemi : ';' ∉ p.1 ++ '=' :: p.2 := by
      intro hmem
      rcases List.mem_append.mp hmem with h1 | h1
      · exact hp.1.2.1 h1
      · rcases List.mem_cons.mp h1 with h2 | h2
        · cases h2
        · exact hp.2.2.1 h2
    show pySplit ';' ((p.1 ++ '=' :: p.2) ++ ';' :: serTail ps) = _
    rw [pySplit_append ';' (serTail ps) hsemi,
      ih (fun q hq => h q (List.mem_cons_of_mem p hq)), List.map_cons, List.cons_append]

/-- Every message produced by `from_bytes` satisfies the `wf` invariant. -/
theorem wf_of_from_bytes {raw : PyBytes} {m : DeviceMessage}
    (h : from_bytes raw = .ok m) : wf m := by
  simp only [from_bytes] at h
  cases hpf : parseFields raw (pySplit ';' (latin1Decode raw)).tail [] with
  | error e => rw [hpf] at h; cases h
  | ok d =>
    rw [hpf] at h
    by_cases hname : (pySplit ';' (latin1Decode raw)).headD [] = []
    · simp only [if_pos hname] at h; cases h
    · simp only [if_neg hname, Except.ok.injEq] at h
      subst h
      cases hps : pySplit ';' (latin1Decode raw) with
      | nil => exact absurd hps (pySplit_ne_nil ';' (latin1Decode raw))
      | cons nm parts =>
        rw [hps] at hname hpf
        have hnm_mem : nm ∈ pySplit ';' (latin1Decode raw) := hps ▸ List.mem_cons_self nm parts
        rcases parseFields_ok_inv raw parts [] d hpf with ⟨hnodup, hmem⟩
        refine ⟨by simpa using hname, not_sep_mem_of_mem_pySplit hnm_mem,
          fun c hc => toNat_lt_of_mem_latin1Decode (mem_of_mem_pySplit hnm_mem hc),
          hnodup (by simp), fun p hp => ?_⟩
        rcases hmem p hp with hfalse | ⟨part, hpart, hsplit⟩
        · cases hfalse
        · have hpart' : part ∈ pySplit ';' (latin1Decode raw) :=
            hps ▸ List.mem_cons_of_mem nm hpart
          rcases pySplit_eq_pair hsplit with ⟨hparteq, hk, hv⟩
          have hsemi := not_sep_mem_of_mem_pySplit hpart'
          rw [hparteq] at hsemi hpart'
          have hchar : ∀ c, c ∈ p.1 ∨ c ∈ p.2 → c.toNat < 256 := by
            intro c hcor
            have hcp : c ∈ p.1 ++ '=' :: p.2 := by
              rcases hcor with hc | hc
              · exact List.mem_append_left _ hc
              · exact List.mem_append_right _ (List.mem_cons_of_mem '=' hc)
            exact toNat_lt_of_mem_latin1Decode (mem_of_mem_pySplit hpart' hcp)
          refine ⟨⟨hk, fun hsc => hsemi (List.mem_append_left _ hsc),
              fun c hc => hchar c (Or.inl hc)⟩,
            ⟨hv, fun hsc => hsemi (List.mem_append_right _ (List.mem_cons_of_mem '=' hsc)),
              fun c hc => hchar c (Or.inr hc)⟩⟩

/-- Encoding a `wf` message and decoding again restores it exactly. -/
theorem from_bytes_to_bytes {m : DeviceMessage} (h : wf m) :
    from_bytes m.to_bytes = .ok m := by
  obtain ⟨hname, hsemi, hlt, hnodup, hpairs⟩ := h
  have hdec : latin1Decode m.to_bytes = m.to_string :=
    latin1Decode_encode (to_string_toNat_lt ⟨hname, hsemi, hlt, hnodup, hpairs⟩)
  have hsplit : pySplit ';' m.to_string =
      m.name :: (m.data.map (fun p => p.1 ++ '=' :: p.2) ++ [[]]) := by
    rw [to_string_eq, pySplit_append ';' (serTail m.data) hsemi,
      pySplit_serTail (fun p hp => hpairs p hp)]
  have hfields : parseFields m.to_bytes (m.data.map (fun p => p.1 ++ '=' :: p.2) ++ [[]]) [] =
      .ok m.data := by
    have := parseFields_build m.to_bytes m.data []
      (fun p hp => ⟨(hpairs p hp).1.1, (hpairs p hp).2.1⟩) (by simpa using hnodup)
    simpa using this
  simp only [from_bytes]
  rw [hdec, hsplit]
  simp only [List.tail_cons, List.headD_cons, hfields, if_neg hname]

/-- A `;`-segment fails the `len(entry) == 2` test exactly when it does not
contain exactly one `=`. -/
theorem pySplit_len_ne_two_iff {part : PyStr} :
    (pySplit '=' part).length ≠ 2 ↔ part.count '=' ≠ 1 := by
  rw [pySplit_length]
  omega

/-- Failure shape: `from_bytes` fails exactly when the name segment is empty or some
non-empty later segment does not contain exactly one `=`. -/
theorem from_bytes_error_iff (raw : PyBytes) :
    (∃ e, from_bytes raw = .error e) ↔
      ((pySplit ';' (latin1Decode raw)).headD [] = [] ∨
        ∃ part ∈ (pySplit ';' (latin1Decode raw)).tail,
          part ≠ [] ∧ part.count '=' ≠ 1) := by
  simp only [from_bytes]
  cases hpf : parseFields raw (pySplit ';' (latin1Decode raw)).tail [] with
  | error e =>
    refine iff_of_true ⟨e, rfl⟩ ?_
    rcases parseFields_error_shape raw _ [] e hpf with ⟨part, hmem, hne, hlen, _⟩
    exact Or.inr ⟨part, hmem, hne, pySplit_len_ne_two_iff.mp hlen⟩
  | ok d =>
    by_cases hname : (pySplit ';' (latin1Decode raw)).headD [] = []
    · simp only [if_pos hname]
      exact iff_of_true ⟨ParseError.emptyName, rfl⟩ (Or.inl hname)
    · simp only [if_neg hname]
      constructor
      · rintro ⟨e, he⟩
        cases he
      · rintro (h | ⟨part, hmem, hne, hcount⟩)
        · exact absurd h hname
        · rcases parseFields_error_exists raw _ []
            ⟨part, hmem, hne, pySplit_len_ne_two_iff.mpr hcount⟩ with ⟨e, he⟩
          rw [hpf] at he
          cases he

/-- Any error from `from_bytes` that reports a malformed segment carries the
offending segment (non-empty, bad `=` count) and the whole raw input. -/
theorem from_bytes_malformed_inv {raw : PyBytes} {part : PyStr} {r : PyBytes}
    (h : from_bytes raw = .error (.malformedSegment part r)) :
    r = raw ∧ part ∈ (pySplit ';' (latin1Decode raw)).tail ∧
      part ≠ [] ∧ part.count '=' ≠ 1 := by
  simp only [from_bytes] at h
  cases hpf : parseFields raw (pySplit ';' (latin1Decode raw)).tail [] with
  | error e =>
    rw [hpf] at h
    cases h
    rcases parseFields_error_shape raw _ [] _ hpf with ⟨q, hmem, hne, hlen, heq⟩
    cases heq
    exact ⟨rfl, hmem, hne, pySplit_len_ne_two_iff.mp hlen⟩
  | ok d =>
    rw [hpf] at h
    by_cases hname : (pySplit ';' (latin1Decode raw)).headD [] = []
    · simp only [if_pos hname] at h
      simp at h
    · simp only [if_neg hname] at h
      simp at h

end DeviceMessage

/-! ### Properties of string comparison and the discovery order -/

theorem char_toNat_inj {a b : Char} (h : a.toNat = b.toNat) : a = b := by
  have ha := Char.ofNat_toNat a
  rw [← ha, h, Char.ofNat_toNat]

theorem strLt_irrefl (s : PyStr) : strLt s s = false := by
  induction s with
  | nil => rfl
  | cons c rest ih => simp [strLt, ih]

theorem strLt_trans {a b c : PyStr} (hab : strLt a b = true)
    (hbc : strLt b c = true) : strLt a c = true := by
  induction a generalizing b c with
  | nil =>
    cases b with
    | nil => cases hab
    | cons y ys =>
      cases c with
      | nil => cases hbc
      | cons z zs => rfl
  | cons x xs ih =>
    cases b with
    | nil => cases hab
    | cons y ys =>
      cases c with
      | nil => cases hbc
      | cons z zs =>
        simp only [strLt] at hab hbc ⊢
        rcases Nat.lt_trichotomy x.toNat y.toNat with h1 | h1 | h1
        · rcases Nat.lt_trichotomy y.toNat z.toNat with h2 | h2 | h2
          · simp [Nat.lt_trans h1 h2]
          · simp [h2 ▸ h1]
          · rw [if_pos h1] at hab
            rw [if_neg (Nat.lt_asymm h2), if_pos h2] at hbc
            cases hbc
        · rw [if_neg (h1 ▸ Nat.lt_irrefl _), if_neg (h1 ▸ Nat.lt_irrefl _)] at hab
          rcases Nat.lt_trichotomy y.toNat z.toNat with h2 | h2 | h2
          · simp [h1 ▸ h2]
          · rw [if_neg (h2 ▸ Nat.lt_irrefl _), if_neg (h2 ▸ Nat.lt_irrefl _)] at hbc
            rw [if_neg ((h1.trans h2) ▸ Nat.lt_irrefl _),
              if_neg ((h1.trans h2) ▸ Nat.lt_irrefl _)]
            exact ih hab hbc
          · rw [if_neg (Nat.lt_asymm h2), if_pos h2] at hbc
            cases hbc
        · rw [if_neg (Nat.lt_asymm h1), if_pos h1] at hab
          cases hab

theorem strLt_trichotomy (a b : PyStr) :
    strLt a b = true ∨ a = b ∨ strLt b a = true := by
  induction a generalizing b with
  | nil =>
    cases b with
    | nil => exact Or.inr (Or.inl rfl)
    | cons y ys => exact Or.inl rfl
  | cons x xs ih =>
    cases b with
    | nil => exact Or.inr (Or.inr rfl)
    | cons y ys =>
      simp only [strLt]
      rcases Nat.lt_trichotomy x.toNat y.toNat with h1 | h1 | h1
      · exact Or.inl (by simp [h1])
      · have hxy : x = y := char_toNat_inj h1
        subst hxy
        simp only [Nat.lt_irrefl, if_neg (Nat.lt_irrefl _), if_false]
        rcases ih ys with h | h | h
        · exact Or.inl h
        · exact Or.inr (Or.inl (by rw [h]))
        · exact Or.inr (Or.inr h)
      · exact Or.inr (Or.inr (by simp [h1]))

/-! ### Properties of `StatusData.from_message` -/

theorem StatusData.from_message_ok_inv {m : DeviceMessage} {s : StatusData}
    (h : StatusData.from_message m = .ok s) :
    m.name = pstr "STATUS" ∧
    ∃ aS vS tS a v t,
      dictGet m.data (pstr "MA") = some aS ∧ parseFloat? aS = some a ∧
      dictGet m.data (pstr "MV") = some vS ∧ parseFloat? vS = some v ∧
      dictGet m.data (pstr "TIME") = some tS ∧ parseFloat? tS = some t ∧
      s.ma = a ∧ s.mv = v ∧ s.time = t / 1000 := by
  simp only [StatusData.from_message] at h
  by_cases hn : m.name ≠ pstr "STATUS"
  · rw [if_pos hn] at h; cases h
  · rw [if_neg hn] at h
    push_neg at hn
    cases hma : dictGet m.data (pstr "MA") with
    | none => simp only [hma] at h; cases h
    | some aS =>
      simp only [hma] at h
      cases hpa : parseFloat? aS with
      | none => simp only [hpa] at h; cases h
      | some a =>
        simp only [hpa] at h
        cases hmv : dictGet m.data (pstr "MV") with
        | none => simp only [hmv] at h; cases h
        | some vS =>
          simp only [hmv] at h
          cases hpv : parseFloat? vS with
          | none => simp only [hpv] at h; cases h
          | some v =>
            simp only [hpv] at h
            cases hmt : dictGet m.data (pstr "TIME") with
            | none => simp only [hmt] at h; cases h
            | some tS =>
              simp only [hmt] at h
              cases hpt : parseFloat? tS with
              | none => simp only [hpt] at h; cases h
              | some t =>
                simp only [hpt] at h
                simp only [Except.ok.injEq] at h
                subst h
                exact ⟨hn, aS, vS, tS, a, v, t, rfl, hpa, rfl, hpv, rfl, hpt, rfl, rfl, rfl⟩

theorem StatusData.from_message_missing_mv {m : DeviceMessage} {aS : PyStr} {a : Rat}
    (hn : m.name = pstr "STATUS") (hma : dictGet m.data (pstr "MA") = some aS)
    (hpa : parseFloat? aS = some a) (hmv : dictGet m.data (pstr "MV") = none) :
    StatusData.from_message m = .error (.missing (pstr "MV")) := by
  simp only [StatusData.from_message]
  rw [if_neg (by simp [hn])]
  simp only [hma, hpa, hmv]

example : parseFloat? (pstr "-11.1") = some (-(111 / 10 : Rat)) := by
  have h1 : digitsVal ['1', '1'] = 11 := by decide
  have h2 : digitsVal ['1'] = 1 := by decide
  simp +decide [parseFloat?, pySplit, pstr, h1, h2]
  norm_num

example :
    StatusData.from_message
      ⟨pstr "STATUS",
        [(pstr "TIME", pstr "300"), (pstr "MV", pstr "4448.9"), (pstr "MA", pstr "-11.1")]⟩ =
      .ok ⟨-(111 / 10 : Rat), 44489 / 10, 3 / 10⟩ := by
  simp +decide [StatusData.from_message, dictGet, parseFloat?, pySplit, pstr, digitsVal, digVal]
  norm_num

example :
    run_test [pbytes "TEST;RESULT=STARTED;", pbytes "STATUS;TIME=100;MV=3332;MA=45;",
      pbytes "STATUS;STATE=IDLE;", pbytes "STATUS;TIME=999;MV=1;MA=2;"] =
    ([⟨pstr "STATUS", [(pstr "TIME", pstr "100"), (pstr "MV", pstr "3332"), (pstr "MA", pstr "45")]⟩],
      .completed) := by
  decide

example :
    DiscoveryData.from_datagrams
      [⟨pstr "192.168.0.10", 6062, pbytes "ID;MODEL=M001;SERIAL=SN0123456;"⟩,
       ⟨pstr "192.168.0.10", 6063, pbytes "ID;MODEL=M001=M002;SERIAL=SN1;"⟩] =
    .error (.malformedSegment (pstr "MODEL=M001=M002") (pbytes "ID;MODEL=M001=M002;SERIAL=SN1;")) := by
  decide

theorem DiscoveryData.lt_irrefl (a : DiscoveryData) : DiscoveryData.lt a a = false := by
  simp [DiscoveryData.lt, strLt_irrefl]

theorem DiscoveryData.lt_trans {a b c : DiscoveryData}
    (hab : DiscoveryData.lt a b = true) (hbc : DiscoveryData.lt b c = true) :
    DiscoveryData.lt a c = true := by
  simp only [DiscoveryData.lt, Bool.or_eq_true, Bool.and_eq_true, beq_iff_eq] at hab hbc ⊢
  rcases hab with h1 | ⟨he1, h1⟩ <;> rcases hbc with h2 | ⟨he2, h2⟩
  · exact Or.inl (strLt_trans h1 h2)
  · exact Or.inl (by rw [← he2]; exact h1)
  · exact Or.inl (by rw [he1]; exact h2)
  · exact Or.inr ⟨he1.trans he2, strLt_trans h1 h2⟩

theorem DiscoveryData.lt_trichotomy (a b : DiscoveryData) :
    DiscoveryData.lt a b = true ∨ (a.model = b.model ∧ a.serial = b.serial) ∨
      DiscoveryData.lt b a = true := by
  simp only [DiscoveryData.lt, Bool.or_eq_true, Bool.and_eq_true, beq_iff_eq]
  rcases strLt_trichotomy a.model b.model with h | h | h
  · exact Or.inl (Or.inl h)
  · rcases strLt_trichotomy a.serial b.serial with h2 | h2 | h2
    · exact Or.inl (Or.inr ⟨h, h2⟩)
    · exact Or.inr (Or.inl ⟨h, h2⟩)
    · exact Or.inr (Or.inr (Or.inr ⟨h.symm, h2⟩))
  · exact Or.inr (Or.inr (Or.inl h))

/-! ### Claim theorems -/

/-- C1: every `DeviceMessage` producible by `DeviceMessage.from_bytes`
satisfies `from_bytes (to_bytes m) = ok m` — re-encoding and decoding gives
back an equal message. -/
theorem claim1_roundtrip (raw : PyBytes) (m : DeviceMessage)
    (h : DeviceMessage.from_bytes raw = .ok m) :
    DeviceMessage.from_bytes m.to_bytes = .ok m :=
  DeviceMessage.from_bytes_to_bytes (DeviceMessage.wf_of_from_bytes h)

theorem claim1_roundtrip_witness :
    DeviceMessage.from_bytes (pbytes "ID;MODEL=M001;SERIAL=SN0123457;") =
      .ok ⟨pstr "ID", [(pstr "MODEL", pstr "M001"), (pstr "SERIAL", pstr "SN0123457")]⟩ ∧
    DeviceMessage.from_bytes
        (DeviceMessage.to_bytes
          ⟨pstr "ID", [(pstr "MODEL", pstr "M001"), (pstr "SERIAL", pstr "SN0123457")]⟩) =
      .ok ⟨pstr "ID", [(pstr "MODEL", pstr "M001"), (pstr "SERIAL", pstr "SN0123457")]⟩ :=
  ⟨by decide, claim1_roundtrip (pbytes "ID;MODEL=M001;SERIAL=SN0123457;") _ (by decide)⟩

/-- C5: `DeviceMessage.from_bytes` fails exactly when the name segment is
empty or some non-empty later segment does not contain exactly one `=`; a
malformed-segment error retains the raw input bytes; in particular the empty
input and `ID;MODEL=M001=M002;SERIAL=SN1;` both fail as described. -/
theorem claim5_decode_failure :
    (∀ raw : PyBytes,
      (∃ e, DeviceMessage.from_bytes raw = .error e) ↔
        ((pySplit ';' (latin1Decode raw)).headD [] = [] ∨
          ∃ part ∈ (pySplit ';' (latin1Decode raw)).tail,
            part ≠ [] ∧ part.count '=' ≠ 1)) ∧
    (∀ (raw : PyBytes) (part : PyStr) (r : PyBytes),
      DeviceMessage.from_bytes raw = .error (.malformedSegment part r) → r = raw) ∧
    DeviceMessage.from_bytes (pbytes "") = .error .emptyName ∧
    DeviceMessage.from_bytes (pbytes "ID;MODEL=M001=M002;SERIAL=SN1;") =
      .error (.malformedSegment (pstr "MODEL=M001=M002")
        (pbytes "ID;MODEL=M001=M002;SERIAL=SN1;")) :=
  ⟨DeviceMessage.from_bytes_error_iff,
    fun _ _ _ h => (DeviceMessage.from_bytes_malformed_inv h).1,
    by decide, by decide⟩

theorem claim5_decode_failure_witness :
    DeviceMessage.from_bytes (pbytes "ID;MODEL=M001=M002;SERIAL=SN1;") =
      .error (.malformedSegment (pstr "MODEL=M001=M002")
        (pbytes "ID;MODEL=M001=M002;SERIAL=SN1;")) ∧
    pbytes "ID;MODEL=M001=M002;SERIAL=SN1;" = pbytes "ID;MODEL=M001=M002;SERIAL=SN1;" :=
  ⟨by decide,
    claim5_decode_failure.2.1 (pbytes "ID;MODEL=M001=M002;SERIAL=SN1;")
      (pstr "MODEL=M001=M002") (pbytes "ID;MODEL=M001=M002;SERIAL=SN1;") (by decide)⟩

/-- C9: a message with no key/value segments decodes successfully with an
empty mapping: both `ID;` and bare `ID` give name `ID` and no data. -/
theorem claim9_no_fields :
    DeviceMessage.from_bytes (pbytes "ID;") = .ok ⟨pstr "ID", []⟩ ∧
    DeviceMessage.from_bytes (pbytes "ID") = .ok ⟨pstr "ID", []⟩ :=
  ⟨by decide, by decide⟩

/-- C6: extraction from `STATUS;TIME=300;MV=4448.9;MA=-11.1;` gives the
sample `(ma = -11.1, mv = 4448.9, elapsedSeconds = 0.3)`; in general a
successful extraction takes `ma`/`mv` from the parsed `MA`/`MV` fields and
`time` from the parsed `TIME` field divided by 1000. -/
theorem claim6_status_extraction :
    (StatusData.from_message
        ⟨pstr "STATUS",
          [(pstr "TIME", pstr "300"), (pstr "MV", pstr "4448.9"), (pstr "MA", pstr "-11.1")]⟩ =
      .ok ⟨-(111 / 10 : Rat), 44489 / 10, 3 / 10⟩) ∧
    (∀ (m : DeviceMessage) (s : StatusData), StatusData.from_message m = .ok s →
      ∃ aS vS tS a v t,
        dictGet m.data (pstr "MA") = some aS ∧ parseFloat? aS = some a ∧
        dictGet m.data (pstr "MV") = some vS ∧ parseFloat? vS = some v ∧
        dictGet m.data (pstr "TIME") = some tS ∧ parseFloat? tS = some t ∧
        s.ma = a ∧ s.mv = v ∧ s.time = t / 1000) := by
  constructor
  · simp +decide [StatusData.from_message, dictGet, parseFloat?, pySplit, pstr, digitsVal, digVal]
    norm_num
  · exact fun m s h => (StatusData.from_message_ok_inv h).2

theorem claim6_status_extraction_witness :
    ∃ aS vS tS a v t,
      dictGet
          [(pstr "TIME", pstr "300"), (pstr "MV", pstr "4448.9"), (pstr "MA", pstr "-11.1")]
          (pstr "MA") = some aS ∧ parseFloat? aS = some a ∧
      dictGet
          [(pstr "TIME", pstr "300"), (pstr "MV", pstr "4448.9"), (pstr "MA", pstr "-11.1")]
          (pstr "MV") = some vS ∧ parseFloat? vS = some v ∧
      dictGet
          [(pstr "TIME", pstr "300"), (pstr "MV", pstr "4448.9"), (pstr "MA", pstr "-11.1")]
          (pstr "TIME") = some tS ∧ parseFloat? tS = some t ∧
      (-(111 / 10 : Rat)) = a ∧ (44489 / 10 : Rat) = v ∧ (3 / 10 : Rat) = t / 1000 :=
  claim6_status_extraction.2
    ⟨pstr "STATUS",
      [(pstr "TIME", pstr "300"), (pstr "MV", pstr "4448.9"), (pstr "MA", pstr "-11.1")]⟩
    ⟨-(111 / 10 : Rat), 44489 / 10, 3 / 10⟩
    claim6_status_extraction.1

/-- C7: a `STATUS` message missing a required key fails with the dedicated
missing-key error naming that key (here `MV`), and this condition is distinct
from the error for a present-but-unparsable value. -/
theorem claim7_missing_field :
    (∀ (m : DeviceMessage) (aS : PyStr) (a : Rat), m.name = pstr "STATUS" →
      dictGet m.data (pstr "MA") = some aS → parseFloat? aS = some a →
      dictGet m.data (pstr "MV") = none →
      StatusData.from_message m = .error (.missing (pstr "MV"))) ∧
    StatusData.from_message
        ⟨pstr "STATUS", [(pstr "TIME", pstr "300"), (pstr "MA", pstr "-11.1")]⟩ =
      .error (.missing (pstr "MV")) ∧
    StatusData.from_message
        ⟨pstr "STATUS",
          [(pstr "TIME", pstr "300"), (pstr "MV", pstr "banana"), (pstr "MA", pstr "-11.1")]⟩ =
      .error (.invalid (pstr "banana")) ∧
    (∀ k v : PyStr, StatusError.missing k ≠ StatusError.invalid v) :=
  ⟨fun _ _ _ hn hma hpa hmv => StatusData.from_message_missing_mv hn hma hpa hmv,
    by decide, by decide, fun _ _ h => StatusError.noConfusion h⟩

theorem claim7_missing_field_witness :
    StatusData.from_message
        ⟨pstr "STATUS", [(pstr "TIME", pstr "300"), (pstr "MA", pstr "7")]⟩ =
      .error (.missing (pstr "MV")) :=
  claim7_missing_field.1
    ⟨pstr "STATUS", [(pstr "TIME", pstr "300"), (pstr "MA", pstr "7")]⟩
    (pstr "7") ((7 : Nat) : Rat) rfl (by decide) rfl (by decide)

/-- C8: the `DiscoveryData` comparison is determined by `(model, serial)`
lexicographically, independent of address and port, and is a strict total
order on those keys (trichotomous, transitive, irreflexive); equality uses
all four fields, so records with equal keys but different ports are unequal;
the three example records sort by `(model, serial)` whatever their ports. -/
theorem claim8_discovery_ordering :
    (∀ (a b : DiscoveryData) (x u : PyStr) (y v : Nat),
      DiscoveryData.lt ⟨x, y, a.model, a.serial⟩ ⟨u, v, b.model, b.serial⟩ =
        DiscoveryData.lt a b) ∧
    (∀ a b : DiscoveryData,
      DiscoveryData.lt a b = true ∨ (a.model = b.model ∧ a.serial = b.serial) ∨
        DiscoveryData.lt b a = true) ∧
    (∀ a b c : DiscoveryData, DiscoveryData.lt a b = true →
      DiscoveryData.lt b c = true → DiscoveryData.lt a c = true) ∧
    (∀ a : DiscoveryData, DiscoveryData.lt a a = false) ∧
    (∀ a b : DiscoveryData, a = b ↔
      a.address = b.address ∧ a.port = b.port ∧ a.model = b.model ∧ a.serial = b.serial) ∧
    (∀ (x u mo se : PyStr) (p q : Nat), p ≠ q →
      (⟨x, p, mo, se⟩ : DiscoveryData) ≠ ⟨u, q, mo, se⟩) ∧
    (∀ p1 p2 p3 : Nat,
      pySorted
        [⟨pstr "192.168.0.10", p1, pstr "M002", pstr "SN546314"⟩,
         ⟨pstr "192.168.0.10", p2, pstr "M001", pstr "SN0123457"⟩,
         ⟨pstr "192.168.0.10", p3, pstr "M001", pstr "SN0123456"⟩] =
        [⟨pstr "192.168.0.10", p3, pstr "M001", pstr "SN0123456"⟩,
         ⟨pstr "192.168.0.10", p2, pstr "M001", pstr "SN0123457"⟩,
         ⟨pstr "192.168.0.10", p1, pstr "M002", pstr "SN546314"⟩]) := by
  refine ⟨fun a b x u y v => rfl, DiscoveryData.lt_trichotomy,
    fun a b c hab hbc => DiscoveryData.lt_trans hab hbc, DiscoveryData.lt_irrefl,
    fun a b => ?_, fun x u mo se p q hpq heq => ?_, fun p1 p2 p3 => rfl⟩
  · cases a
    cases b
    simp [DiscoveryData.mk.injEq]
  · injection heq with h1 h2 h3 h4
    exact hpq h2

theorem claim8_discovery_ordering_witness :
    DiscoveryData.lt
      ⟨pstr "192.168.0.10", 6062, pstr "M001", pstr "SN0123456"⟩
      ⟨pstr "192.168.0.10", 6064, pstr "M002", pstr "SN546314"⟩ = true ∧
    (⟨pstr "192.168.0.10", 6063, pstr "M002", pstr "SN546314"⟩ : DiscoveryData) ≠
      ⟨pstr "192.168.0.10", 6064, pstr "M002", pstr "SN546314"⟩ :=
  ⟨claim8_discovery_ordering.2.2.1
      ⟨pstr "192.168.0.10", 6062, pstr "M001", pstr "SN0123456"⟩
      ⟨pstr "192.168.0.10", 6063, pstr "M001", pstr "SN0123457"⟩
      ⟨pstr "192.168.0.10", 6064, pstr "M002", pstr "SN546314"⟩
      (by decide) (by decide),
    claim8_discovery_ordering.2.2.2.2.2.1
      (pstr "192.168.0.10") (pstr "192.168.0.10") (pstr "M002") (pstr "SN546314")
      6063 6064 (by decide)⟩

/-- C2: a session whose inbound datagrams are the `TEST;RESULT=STARTED;`
acknowledgment, three telemetry `STATUS` messages (with `TIME`, `MV`, `MA`
fields), and the `STATUS;STATE=IDLE;` sentinel yields exactly the three
status messages, in arrival order, then stops normally (`completed`); the
acknowledgment and the sentinel are consumed and never yielded, and the three
yields convert to the corresponding status samples. -/
theorem claim2_session (d1 d2 d3 : PyBytes) (t1 v1 a1 t2 v2 a2 t3 v3 a3 : PyStr)
    (tq1 vq1 aq1 tq2 vq2 aq2 tq3 vq3 aq3 : Rat)
    (h1 : DeviceMessage.from_bytes d1 =
      .ok ⟨pstr "STATUS", [(pstr "TIME", t1), (pstr "MV", v1), (pstr "MA", a1)]⟩)
    (h2 : DeviceMessage.from_bytes d2 =
      .ok ⟨pstr "STATUS", [(pstr "TIME", t2), (pstr "MV", v2), (pstr "MA", a2)]⟩)
    (h3 : DeviceMessage.from_bytes d3 =
      .ok ⟨pstr "STATUS", [(pstr "TIME", t3), (pstr "MV", v3), (pstr "MA", a3)]⟩)
    (hp1 : parseFloat? t1 = some tq1) (hp2 : parseFloat? v1 = some vq1)
    (hp3 : parseFloat? a1 = some aq1) (hp4 : parseFloat? t2 = some tq2)
    (hp5 : parseFloat? v2 = some vq2) (hp6 : parseFloat? a2 = some aq2)
    (hp7 : parseFloat? t3 = some tq3) (hp8 : parseFloat? v3 = some vq3)
    (hp9 : parseFloat? a3 = some aq3) :
    run_test [pbytes "TEST;RESULT=STARTED;", d1, d2, d3, pbytes "STATUS;STATE=IDLE;"] =
      ([⟨pstr "STATUS", [(pstr "TIME", t1), (pstr "MV", v1), (pstr "MA", a1)]⟩,
        ⟨pstr "STATUS", [(pstr "TIME", t2), (pstr "MV", v2), (pstr "MA", a2)]⟩,
        ⟨pstr "STATUS", [(pstr "TIME", t3), (pstr "MV", v3), (pstr "MA", a3)]⟩],
        .completed) ∧
    [⟨pstr "STATUS", [(pstr "TIME", t1), (pstr "MV", v1), (pstr "MA", a1)]⟩,
     ⟨pstr "STATUS", [(pstr "TIME", t2), (pstr "MV", v2), (pstr "MA", a2)]⟩,
     ⟨pstr "STATUS", [(pstr "TIME", t3), (pstr "MV", v3), (pstr "MA", a3)]⟩].map
        StatusData.from_message =
      [.ok ⟨aq1, vq1, tq1 / 1000⟩, .ok ⟨aq2, vq2, tq2 / 1000⟩,
        .ok ⟨aq3, vq3, tq3 / 1000⟩] := by
  have hack : DeviceMessage.from_bytes (pbytes "TEST;RESULT=STARTED;") =
      .ok ⟨pstr "TEST", [(pstr "RESULT", pstr "STARTED")]⟩ := by decide
  have hidle : DeviceMessage.from_bytes (pbytes "STATUS;STATE=IDLE;") =
      .ok ⟨pstr "STATUS", [(pstr "STATE", pstr "IDLE")]⟩ := by decide
  constructor
  · simp +decide [run_test, hack, h1, h2, h3, hidle, dictGet, List.find?, pstr]
  · simp +decide [StatusData.from_message, dictGet, List.find?, pstr,
      hp1, hp2, hp3, hp4, hp5, hp6, hp7, hp8, hp9]

theorem claim2_session_witness :
    run_test [pbytes "TEST;RESULT=STARTED;", pbytes "STATUS;TIME=100;MV=3332;MA=45;",
        pbytes "STATUS;TIME=200;MV=3300;MA=44;", pbytes "STATUS;TIME=300;MV=3200;MA=43;",
        pbytes "STATUS;STATE=IDLE;"] =
      ([⟨pstr "STATUS", [(pstr "TIME", pstr "100"), (pstr "MV", pstr "3332"), (pstr "MA", pstr "45")]⟩,
        ⟨pstr "STATUS", [(pstr "TIME", pstr "200"), (pstr "MV", pstr "3300"), (pstr "MA", pstr "44")]⟩,
        ⟨pstr "STATUS", [(pstr "TIME", pstr "300"), (pstr "MV", pstr "3200"), (pstr "MA", pstr "43")]⟩],
        .completed) ∧
    [(⟨pstr "STATUS", [(pstr "TIME", pstr "100"), (pstr "MV", pstr "3332"), (pstr "MA", pstr "45")]⟩ : DeviceMessage),
     ⟨pstr "STATUS", [(pstr "TIME", pstr "200"), (pstr "MV", pstr "3300"), (pstr "MA", pstr "44")]⟩,
     ⟨pstr "STATUS", [(pstr "TIME", pstr "300"), (pstr "MV", pstr "3200"), (pstr "MA", pstr "43")]⟩].map
        StatusData.from_message =
      [.ok ⟨((45 : Nat) : Rat), ((3332 : Nat) : Rat), ((100 : Nat) : Rat) / 1000⟩,
        .ok ⟨((44 : Nat) : Rat), ((3300 : Nat) : Rat), ((200 : Nat) : Rat) / 1000⟩,
        .ok ⟨((43 : Nat) : Rat), ((3200 : Nat) : Rat), ((300 : Nat) : Rat) / 1000⟩] :=
  claim2_session
    (pbytes "STATUS;TIME=100;MV=3332;MA=45;")
    (pbytes "STATUS;TIME=200;MV=3300;MA=44;")
    (pbytes "STATUS;TIME=300;MV=3200;MA=43;")
    (pstr "100") (pstr "3332") (pstr "45") (pstr "200") (pstr "3300") (pstr "44")
    (pstr "300") (pstr "3200") (pstr "43")
    ((100 : Nat) : Rat) ((3332 : Nat) : Rat) ((45 : Nat) : Rat)
    ((200 : Nat) : Rat) ((3300 : Nat) : Rat) ((44 : Nat) : Rat)
    ((300 : Nat) : Rat) ((3200 : Nat) : Rat) ((43 : Nat) : Rat)
    (by decide) (by decide) (by decide)
    rfl rfl rfl rfl rfl rfl rfl rfl rfl

/-- C10 (implicit): the successful-completion check of `run_test` ignores the
message name — any decoded message not named `TEST` whose data maps `STATE`
to `IDLE` terminates the stream without being yielded, whatever its name. -/
theorem claim10_idle_any_name (raw : PyBytes) (rest : List PyBytes) (m : DeviceMessage)
    (h : DeviceMessage.from_bytes raw = .ok m) (hname : m.name ≠ pstr "TEST")
    (hstate : dictGet m.data (pstr "STATE") = some (pstr "IDLE")) :
    run_test (raw :: rest) = ([], .completed) := by
  simp only [run_test, h, if_neg hname, if_pos hstate]

theorem claim10_idle_any_name_witness :
    run_test [pbytes "FOO;STATE=IDLE;", pbytes "STATUS;TIME=100;MV=3332;MA=45;"] =
      ([], .completed) :=
  claim10_idle_any_name (pbytes "FOO;STATE=IDLE;")
    [pbytes "STATUS;TIME=100;MV=3332;MA=45;"]
    ⟨pstr "FOO", [(pstr "STATE", pstr "IDLE")]⟩
    (by decide) (by decide) (by decide)

/-- C4 (counterexample): when the transport sequence ends with a timeout
right after the `TEST` acknowledgment, `run_test` does not end its stream
normally: its exit is `timeoutRaised` — the uncaught `TimeoutError`
propagating to the caller — which is distinct from the normal `completed`
exit. -/
theorem claim4_counterexample :
    run_test [pbytes "TEST;RESULT=STARTED;"] = ([], .timeoutRaised) ∧
    SessionExit.timeoutRaised ≠ SessionExit.completed :=
  ⟨by decide, by decide⟩

/-- C4 (amended): when the transport's sequence ends with a `TimeoutError`
before any `STATE=IDLE` report, `run_test` stops producing samples, but the
`TimeoutError` propagates to the caller (exit `timeoutRaised`) instead of the
stream ending normally. -/
theorem claim4_timeout_propagates (dgs : List PyBytes)
    (h : ∀ raw ∈ dgs, ∃ m, DeviceMessage.from_bytes raw = .ok m ∧
      dictGet m.data (pstr "STATE") ≠ some (pstr "IDLE")) :
    (run_test dgs).2 = .timeoutRaised := by
  induction dgs with
  | nil => rfl
  | cons raw rest ih =>
    rcases h raw (List.mem_cons_self raw rest) with ⟨m, hm, hst⟩
    have hrest := fun r hr => h r (List.mem_cons_of_mem raw hr)
    simp only [run_test, hm]
    by_cases ht : m.name = pstr "TEST"
    · rw [if_pos ht]
      exact ih hrest
    · rw [if_neg ht, if_neg hst]
      exact ih hrest

theorem claim4_timeout_propagates_witness :
    (run_test [pbytes "TEST;RESULT=STARTED;", pbytes "STATUS;TIME=100;MV=3332;MA=45;"]).2 =
      .timeoutRaised :=
  claim4_timeout_propagates
    [pbytes "TEST;RESULT=STARTED;", pbytes "STATUS;TIME=100;MV=3332;MA=45;"]
    (by
      intro raw hr
      rcases List.mem_cons.mp hr with rfl | hr
      · exact ⟨⟨pstr "TEST", [(pstr "RESULT", pstr "STARTED")]⟩, by decide, by decide⟩
      · rcases List.mem_singleton.mp hr with rfl
        exact ⟨⟨pstr "STATUS",
          [(pstr "TIME", pstr "100"), (pstr "MV", pstr "3332"), (pstr "MA", pstr "45")]⟩,
          by decide, by decide⟩)

/-- C3 (code evaluated at the failing input): a datagram whose payload fails
to decode makes `DiscoveryData.from_datagrams` abort with the propagated
parse error — it is not dropped — while a datagram merely missing the
`MODEL` key is dropped and the remaining records are still returned. -/
theorem claim3_parse_error_propagates :
    DiscoveryData.from_datagrams
      [⟨pstr "192.168.0.10", 6062, pbytes "ID;MODEL=M001;SERIAL=SN0123456;"⟩,
       ⟨pstr "192.168.0.10", 6063, pbytes "ID;MODEL=M001=M002;SERIAL=SN1;"⟩] =
      .error (.malformedSegment (pstr "MODEL=M001=M002")
        (pbytes "ID;MODEL=M001=M002;SERIAL=SN1;")) ∧
    DiscoveryData.from_datagrams
      [⟨pstr "192.168.0.10", 6062, pbytes "ID;MODEL=M001;SERIAL=SN0123456;"⟩,
       ⟨pstr "192.168.0.10", 6063, pbytes "ID;SERIAL=SN1;"⟩] =
      .ok [⟨pstr "192.168.0.10", 6062, pstr "M001", pstr "SN0123456"⟩] :=
  ⟨by decide, by decide⟩

end RocketTest
